import Mathlib

/-!
Shallow embedding of the process event cache of the opensnitch daemon
(daemon/procmon/cache_events.go) together with proofs about its operations.

The Go store is a map from PID to `ExecEventItem` guarded by a reader-writer
lock; the embedding models the map as an association list with Go map
semantics (reading an absent key yields the zero value, writing replaces the
existing binding) and models each locked critical section as a pure state
transformation.  Wall-clock time and the kernel process table are threaded
through an explicit environment.
-/

namespace Procmon

/-- Association-list lookup with Go map read semantics: first binding wins
(bindings are kept unique by `mapInsert`). -/
def mapLookup [DecidableEq α] (k : α) : List (α × β) → Option β
  | [] => none
  | (k₀, v₀) :: rest => if k₀ = k then some v₀ else mapLookup k rest

/-- Association-list write with Go map semantics: replace the binding in
place when the key is present, append it otherwise. -/
def mapInsert [DecidableEq α] (k : α) (v : β) : List (α × β) → List (α × β)
  | [] => [(k, v)]
  | (k₀, v₀) :: rest =>
      if k₀ = k then (k, v) :: rest else (k₀, v₀) :: mapInsert k v rest

/-- Association-list deletion with Go map semantics (`delete(m, k)`). -/
def mapErase [DecidableEq α] (k : α) : List (α × β) → List (α × β)
  | [] => []
  | (k₀, v₀) :: rest =>
      if k₀ = k then rest else (k₀, v₀) :: mapErase k rest

@[simp] theorem mapLookup_nil [DecidableEq α] (k : α) :
    mapLookup k ([] : List (α × β)) = none := rfl

@[simp] theorem mapLookup_cons [DecidableEq α] (k k₀ : α) (v₀ : β) (rest : List (α × β)) :
    mapLookup k ((k₀, v₀) :: rest)
      = if k₀ = k then some v₀ else mapLookup k rest := rfl

/-- Keys of an association list. -/
def mapKeys (l : List (α × β)) : List α := l.map Prod.fst

/-- Modelled from the spec: the `Process` value object handed to the cache is
declared outside the cache file, so its fields follow the data model of the
spec (pid, ppid, path, args, comm, starttime, tree, parent back-reference,
checksums).  The parent back-reference is modelled as a PID relation, as the
spec itself recommends.  `starttime` is the unsigned monotonic birth stamp. -/
structure Process where
  pid : Int
  ppid : Int
  path : String
  args : List String
  comm : String
  starttime : Nat
  tree : List (String × Int)
  parentPid : Option Int
  checksums : List (String × String)
deriving DecidableEq

/-- Go zero value of `Process` (nil pointers and nil slices become `none`
and `[]`). -/
def zeroProcess : Process :=
  { pid := 0, ppid := 0, path := "", args := [], comm := "", starttime := 0,
    tree := [], parentPid := none, checksums := [] }

/-- ExecEventItem represents an item of the cache: a copy of the process plus
the last-seen timestamp in nanoseconds and the per-item TTL field. -/
structure ExecEventItem where
  Proc : Process
  LastSeen : Int
  TTL : Int
deriving DecidableEq

/-- Go zero value of `ExecEventItem`, returned by a map read on an absent
key. -/
def zeroExecEventItem : ExecEventItem :=
  { Proc := zeroProcess, LastSeen := 0, TTL := 0 }

/-- EventsStore is the cache of exec events: the PID map, the checksum
algorithm reference counts and the enabled flag (the lock of the Go struct
is modelled away by treating each critical section as one pure step). -/
structure EventsStore where
  eventByPID : List (Int × ExecEventItem)
  checksums : List (String × Nat)
  checksumsEnabled : Bool
deriving DecidableEq

/-- NewEventsStore creates a new store of events (empty maps, checksums
disabled). -/
def NewEventsStore : EventsStore :=
  { eventByPID := [], checksums := [], checksumsEnabled := false }

/-- Modelled from the spec: the environment visible to the cache.  `now` is
the wall clock in nanoseconds; `live` is the kernel process table consulted
by `Process.IsAlive`, which the spec describes as an externally determined
predicate, typically a filesystem check of /proc/(pid) against the kernel
process table, hence indexed by PID; `getParent` and `buildTree` are the
ancestry resolvers behind `Process.GetParent` and `Process.BuildTree`;
`hashProc` is the hashing routine behind `Process.ComputeChecksums`, taking
the current algorithm registry. -/
structure Env where
  now : Int
  live : Int → Bool
  getParent : Process → Option Int
  buildTree : Process → List (String × Int)
  hashProc : List (String × Nat) → Process → List (String × String)

/-- IsAlive of a process: membership of its PID in the kernel process
table. -/
def Process.IsAlive (env : Env) (p : Process) : Bool := env.live p.pid

/-- ChecksumsCount returns the number of computed checksums. -/
def Process.ChecksumsCount (p : Process) : Nat := p.checksums.length

/-- Modelled from the spec: `Process.GetParent` followed by
`Process.BuildTree` resolves the parent and the ancestry sequence from the
environment, touching only the `parentPid` and `tree` fields. -/
def buildAncestry (env : Env) (p : Process) : Process :=
  let p₁ := { p with parentPid := env.getParent p }
  { p₁ with tree := env.buildTree p₁ }

/-- The TTL a PID is retained on cache before an Exit event (seconds). -/
def pidTTL : Int := 20

/-- The delay before a scheduled deletion fires (2 seconds, in
nanoseconds). -/
def exitDelay : Int := 2000000000

/-- isValid of a cache item: the age in truncated whole seconds is below
`pidTTL` (Go truncates the float seconds toward zero, hence `Int.tdiv`). -/
def ExecEventItem.isValid (env : Env) (item : ExecEventItem) : Bool :=
  decide ((env.now - item.LastSeen).tdiv 1000000000 < pidTTL)

namespace EventsStore

/-- UpdateItem updates a cache item.  Translation of the Go body: an empty
path returns at once; the map read of the old item yields the zero value on
an absent key; the out-of-order guard discards the update when the stored
path differs and the stored starttime is strictly greater; otherwise a fresh
item with `LastSeen = now` (and zero TTL, the Go literal omits the field)
replaces the binding. -/
def UpdateItem (env : Env) (e : EventsStore) (proc : Process) : EventsStore :=
  if proc.path = "" then e
  else
    let oldItem := (mapLookup proc.pid e.eventByPID).getD zeroExecEventItem
    if oldItem.Proc.path ≠ proc.path ∧ proc.starttime < oldItem.Proc.starttime then e
    else
      let ev : ExecEventItem := { Proc := proc, LastSeen := env.now, TTL := 0 }
      { e with eventByPID := mapInsert proc.pid ev e.eventByPID }

/-- GetComputeChecksums returns if computing checksums is enabled or not. -/
def GetComputeChecksums (e : EventsStore) : Bool := e.checksumsEnabled

/-- ComputeChecksums obtains the checksums of the process: it short-circuits
when the feature is disabled or when the (never nil at the call sites)
process is alive and already hashed; otherwise it invokes the hashing
routine of the process with the current algorithm registry. -/
def ComputeChecksums (env : Env) (e : EventsStore) (proc : Process) :
    Bool × Process :=
  if ¬e.checksumsEnabled ∨ (proc.IsAlive env = true ∧ 0 < proc.ChecksumsCount) then
    (false, proc)
  else
    (true, { proc with checksums := env.hashProc e.checksums proc })

/-- Add adds a new process to cache: update the item at once, then compute
the checksums if enabled and persist them with a second update.  The Go
method mutates the pointed-to process; the embedding threads the mutated
value through the second update. -/
def Add (env : Env) (e : EventsStore) (proc : Process) : EventsStore :=
  let e₁ := UpdateItem env e proc
  if e₁.GetComputeChecksums then
    match ComputeChecksums env e₁ proc with
    | (true, proc₁) => UpdateItem env e₁ proc₁
    | (false, _) => e₁
  else e₁

/-- ReplaceItem replaces an existing process with a new one: re-parent the
new process under the old PID, write it, hash and re-write it when it lacks
checksums, enrich and write back the old process when its tree is empty, and
finally link the new process to the old one and write it again when its tree
is empty. -/
def ReplaceItem (env : Env) (e : EventsStore) (oldProc newProc : Process) :
    EventsStore :=
  let newProc₁ := { newProc with ppid := oldProc.pid }
  let e₁ := UpdateItem env e newProc₁
  let newProc₂ :=
    if newProc₁.ChecksumsCount = 0 then (ComputeChecksums env e₁ newProc₁).2
    else newProc₁
  let e₂ :=
    if newProc₁.ChecksumsCount = 0 then UpdateItem env e₁ newProc₂ else e₁
  let oldProc₁ :=
    if oldProc.tree.length = 0 then buildAncestry env oldProc else oldProc
  let e₃ :=
    if oldProc.tree.length = 0 then UpdateItem env e₂ oldProc₁ else e₂
  if newProc₂.tree.length = 0 then
    let newProc₃ := { newProc₂ with parentPid := some oldProc₁.pid }
    UpdateItem env e₃ { newProc₃ with tree := env.buildTree newProc₃ }
  else e₃

/-- Update reconciles a cached process with a candidate: a same-PID
different-path candidate delegates to `ReplaceItem`; otherwise the old
process gets its ancestry resolved when missing, the candidate inherits the
resolved tree when it lacks one, and the flagged values are written back in
that order. -/
def Update (env : Env) (e : EventsStore) (oldProc : Process)
    (procOpt : Option Process) : EventsStore :=
  match procOpt with
  | some proc =>
      if proc.pid = oldProc.pid ∧ proc.path ≠ oldProc.path then
        ReplaceItem env e oldProc proc
      else
        let oldProc₁ :=
          if oldProc.tree.length = 0 then buildAncestry env oldProc else oldProc
        let proc₁ :=
          if 0 < oldProc₁.tree.length ∧ proc.tree.length = 0 ∧ oldProc₁.pid = proc.pid
          then { proc with tree := oldProc₁.tree } else proc
        let e₁ :=
          if oldProc.tree.length = 0 then UpdateItem env e oldProc₁ else e
        if 0 < oldProc₁.tree.length ∧ proc.tree.length = 0 ∧ oldProc₁.pid = proc.pid
        then UpdateItem env e₁ proc₁ else e₁
  | none =>
      let oldProc₁ :=
        if oldProc.tree.length = 0 then buildAncestry env oldProc else oldProc
      if oldProc.tree.length = 0 then UpdateItem env e oldProc₁ else e

/-- The cache-hit predicate: decides whether the caller of a lookup should
refresh the cached entry against the candidate (which may be nil).  The
cached process pointer is never nil at the call site, so the nil checks on
it in the source are constant true. -/
def needsUpdate (env : Env) (cachedProc : Process) (proc : Option Process) :
    Bool :=
  let sumsCount := cachedProc.ChecksumsCount
  if proc.any (fun p => p.pid == cachedProc.pid && p.path != cachedProc.path) then
    true
  else if proc.isSome && decide (0 < sumsCount) && cachedProc.IsAlive env then
    false
  else if sumsCount == 0 then
    true
  else if proc.any (fun p => p.tree.isEmpty) then
    true
  else if cachedProc.tree.isEmpty then
    true
  else
    false

/-- IsInStoreByPID checks if a pid exists in cache.  The Go body reads the
item (a copy), and then assigns the current time to the `LastSeen` field of
that local copy under the write lock without storing it back, so the store
itself is returned unchanged and only the snapshot carries the new
timestamp. -/
def IsInStoreByPID (env : Env) (e : EventsStore) (key : Int) :
    Option ExecEventItem × EventsStore :=
  match mapLookup key e.eventByPID with
  | none => (none, e)
  | some item => (some { item with LastSeen := env.now }, e)

/-- IsInStore checks if a PID is in the store and evaluates the
`needsUpdate` flag against the candidate process. -/
def IsInStore (env : Env) (e : EventsStore) (key : Int)
    (proc : Option Process) : Option ExecEventItem × Bool :=
  match (IsInStoreByPID env e key).1 with
  | none => (none, false)
  | some item => (some item, needsUpdate env item.Proc proc)

/-- Len returns the number of items in cache. -/
def Len (e : EventsStore) : Nat := e.eventByPID.length

/-- The scheduling half of Delete: the entry captured under the lock at call
time, `none` when the key is absent (in which case nothing is armed). -/
def Delete (e : EventsStore) (key : Int) : Option ExecEventItem :=
  mapLookup key e.eventByPID

/-- The deferred half of Delete, firing `exitDelay` later: with `ev` the
entry captured at schedule time and `e` the store at fire time, the key is
removed exactly when the captured process is not alive at fire time. -/
def deleteFire (env : Env) (e : EventsStore) (key : Int)
    (ev : ExecEventItem) : EventsStore :=
  if ev.Proc.IsAlive env then e
  else { e with eventByPID := mapErase key e.eventByPID }

/-- DeleteOldItems deletes items that have exited and exceeded the TTL;
alive processes are not deleted. -/
def DeleteOldItems (env : Env) (e : EventsStore) : EventsStore :=
  let keep := fun (kv : Int × ExecEventItem) => kv.2.isValid env || kv.2.Proc.IsAlive env
  { e with eventByPID := e.eventByPID.filter keep }

/-- AddChecksumHash adds a new hash algorithm to compute checksums: the Go
increment on a `map[string]uint` reads 0 on an absent key and stores the
incremented count, wrapping at 2^64. -/
def AddChecksumHash (e : EventsStore) (hash : String) : EventsStore :=
  let n := ((mapLookup hash e.checksums).getD 0 + 1) % 2 ^ 64
  { e with checksums := mapInsert hash n e.checksums }

/-- DelChecksumHash deletes a hash algorithm from the list: the count is
decremented only when the key is present, with unsigned wrap-around, and the
key itself is never removed. -/
def DelChecksumHash (e : EventsStore) (hash : String) : EventsStore :=
  match mapLookup hash e.checksums with
  | some v =>
      let n := (v + (2 ^ 64 - 1)) % 2 ^ 64
      { e with checksums := mapInsert hash n e.checksums }
  | none => e

end EventsStore

/-- One mutating operation on the store, with the values the external caller
supplies.  `deleteFire` is the deferred half of `Delete`, carrying the entry
captured at schedule time; the scheduling half performs no mutation. -/
inductive CacheOp where
  | add (p : Process)
  | updateItem (p : Process)
  | replaceItem (oldProc newProc : Process)
  | update (oldProc : Process) (procOpt : Option Process)
  | deleteFire (key : Int) (ev : ExecEventItem)
  | deleteOld

/-- Interpretation of one operation as a store transformation. -/
def applyOp (env : Env) (e : EventsStore) : CacheOp → EventsStore
  | .add p => e.Add env p
  | .updateItem p => e.UpdateItem env p
  | .replaceItem oldProc newProc => e.ReplaceItem env oldProc newProc
  | .update oldProc procOpt => e.Update env oldProc procOpt
  | .deleteFire key ev => e.deleteFire env key ev
  | .deleteOld => e.DeleteOldItems env

/-- Interpretation of a sequence of operations, each under its own
environment (the clock and the process table move between calls). -/
def runOps (e : EventsStore) : List (Env × CacheOp) → EventsStore
  | [] => e
  | (env, op) :: rest => runOps (applyOp env e op) rest

/-- A per-item predicate holding of every entry of the PID map. -/
def storeInv (P : ExecEventItem → Prop) (e : EventsStore) : Prop :=
  ∀ kv ∈ e.eventByPID, P kv.2

/-- Convenience constructor for a process with the fields the cache
inspects. -/
def mkProc (pid : Int) (path : String) (st : Nat) : Process :=
  { zeroProcess with pid := pid, path := path, starttime := st }

/-- Concrete environment: clock at 1000 ns, empty kernel process table,
trivial ancestry and hashing oracles. -/
def envStopped : Env :=
  { now := 1000, live := fun _ => false, getParent := fun _ => none,
    buildTree := fun _ => [], hashProc := fun _ _ => [] }

/-- Concrete environment in which every PID is alive. -/
def envRunning : Env := { envStopped with live := fun _ => true }

/-- Concrete environment whose clock is 30 s past the epoch. -/
def envLate : Env := { envStopped with now := 30000000000 }

/-- Concrete process stored before the lookup of the C1 scenario. -/
def procA : Process := mkProc 1 "/bin/a" 100

/-- Concrete stored item with last-seen stamp 0. -/
def itemA : ExecEventItem := { Proc := procA, LastSeen := 0, TTL := 0 }

/-- Concrete one-entry store for the C1 scenario. -/
def storeA : EventsStore :=
  { eventByPID := [(1, itemA)], checksums := [], checksumsEnabled := false }

/-- Old incarnation of PID 4 (exited before the deferred delete fires). -/
def procOld : Process := mkProc 4 "/bin/old" 100

/-- Newer incarnation of PID 4 (running when the deferred delete fires). -/
def procNew : Process := mkProc 4 "/bin/new" 200

/-- Store at the time Delete(4) is scheduled. -/
def storeSched : EventsStore :=
  { eventByPID := [(4, { Proc := procOld, LastSeen := 0, TTL := 0 })],
    checksums := [], checksumsEnabled := false }

/-- Store at the time the deferred delete fires, after PID 4 was
overwritten. -/
def storeFire : EventsStore :=
  { eventByPID := [(4, { Proc := procNew, LastSeen := 500, TTL := 0 })],
    checksums := [], checksumsEnabled := false }

/-- Cached process of the C4 scenario: alive, with a tree but no checksums
yet. -/
def cachedC4 : Process :=
  { mkProc 9 "/bin/a" 100 with tree := [("/sbin/init", 1)] }

/-- Candidate process of the C4 scenario: same pid and path, carrying a
checksum. -/
def candC4 : Process :=
  { mkProc 9 "/bin/a" 100 with checksums := [("sha256", "aa")],
                               tree := [("/sbin/init", 1)] }

/-- Stored item of the C5 witness: last seen at 0, hence 30 s old under
`envLate`. -/
def itemOld30 : ExecEventItem :=
  { Proc := mkProc 6 "/bin/z" 10, LastSeen := 0, TTL := 0 }

/-- One-entry store for the C5 witness. -/
def storeOld30 : EventsStore :=
  { eventByPID := [(6, itemOld30)], checksums := [], checksumsEnabled := false }

/-- Concrete process of the C3 witness: a same-path update carrying a
checksum with an older starttime. -/
def procX : Process :=
  { mkProc 7 "/bin/x" 50 with checksums := [("sha1", "abc")] }

/-- Cached process of the C4 witness: hashed, alive, with an ancestry
tree. -/
def cachedHit : Process :=
  { mkProc 11 "/bin/hit" 5 with checksums := [("sha256", "zz")],
                                tree := [("/sbin/init", 1)] }

/-- Candidate process of the C4 witness: same pid and path as the cached
one. -/
def candHit : Process := mkProc 11 "/bin/hit" 6

/-- Operation sequence exercising every mutating operation of the store, for
the invariant witnesses. -/
def opsW : List (Env × CacheOp) :=
  [(envStopped, CacheOp.add (mkProc 2 "/bin/b" 7)),
   (envStopped, CacheOp.updateItem (mkProc 2 "/bin/b" 8)),
   (envRunning, CacheOp.replaceItem (mkProc 2 "/bin/b" 8) (mkProc 2 "/bin/c" 9)),
   (envRunning, CacheOp.update (mkProc 2 "/bin/c" 9) (some (mkProc 2 "/bin/c" 9))),
   (envStopped, CacheOp.deleteFire 2 itemA),
   (envLate, CacheOp.deleteOld)]

theorem mapLookup_insert_self [DecidableEq α] (k : α) (v : β) (l : List (α × β)) :
    mapLookup k (mapInsert k v l) = some v := by
  induction l with
  | nil => simp [mapInsert, mapLookup]
  | cons hd tl ih =>
      obtain ⟨k₀, v₀⟩ := hd
      by_cases hk : k₀ = k <;> simp [mapInsert, mapLookup, hk, ih]

theorem mapLookup_insert_ne [DecidableEq α] (k k₁ : α) (v : β) (l : List (α × β))
    (h : k₁ ≠ k) : mapLookup k₁ (mapInsert k v l) = mapLookup k₁ l := by
  induction l with
  | nil => simp [mapInsert, mapLookup, Ne.symm h]
  | cons hd tl ih =>
      obtain ⟨k₀, v₀⟩ := hd
      by_cases hk : k₀ = k
      · subst hk
        simp [mapInsert, mapLookup, Ne.symm h]
      · by_cases hk₁ : k₀ = k₁ <;> simp [mapInsert, mapLookup, hk, hk₁, ih, h]

theorem mem_of_mem_mapInsert [DecidableEq α] {k : α} {v : β} {l : List (α × β)}
    {kv : α × β} (h : kv ∈ mapInsert k v l) : kv = (k, v) ∨ kv ∈ l := by
  induction l with
  | nil =>
      simp only [mapInsert, List.mem_singleton] at h
      exact Or.inl h
  | cons hd tl ih =>
      obtain ⟨k₀, v₀⟩ := hd
      by_cases hk : k₀ = k
      · simp only [mapInsert, hk, if_pos rfl] at h
        rcases List.mem_cons.mp h with h | h
        · exact Or.inl h
        · exact Or.inr (List.mem_cons_of_mem _ h)
      · simp only [mapInsert, if_neg hk] at h
        rcases List.mem_cons.mp h with h | h
        · exact Or.inr (h ▸ List.mem_cons_self _ _)
        · rcases ih h with h | h
          · exact Or.inl h
          · exact Or.inr (List.mem_cons_of_mem _ h)

theorem mem_of_mem_mapErase [DecidableEq α] {k : α} {l : List (α × β)}
    {kv : α × β} (h : kv ∈ mapErase k l) : kv ∈ l := by
  induction l with
  | nil => exact h
  | cons hd tl ih =>
      obtain ⟨k₀, v₀⟩ := hd
      by_cases hk : k₀ = k
      · simp only [mapErase, if_pos hk] at h
        exact List.mem_cons_of_mem _ h
      · simp only [mapErase, if_neg hk] at h
        rcases List.mem_cons.mp h with h | h
        · exact h ▸ List.mem_cons_self _ _
        · exact List.mem_cons_of_mem _ (ih h)

theorem mapLookup_mem [DecidableEq α] {k : α} {v : β} {l : List (α × β)}
    (h : mapLookup k l = some v) : (k, v) ∈ l := by
  induction l with
  | nil => simp [mapLookup] at h
  | cons hd tl ih =>
      obtain ⟨k₀, v₀⟩ := hd
      by_cases hk : k₀ = k
      · subst hk
        simp [mapLookup] at h
        exact h ▸ List.mem_cons_self _ _
      · simp [mapLookup, hk] at h
        exact List.mem_cons_of_mem _ (ih h)

theorem mapLookup_filter_of_kept [DecidableEq α] {k : α} {v : β} {l : List (α × β)}
    (p : α × β → Bool) (h : mapLookup k l = some v) (hp : p (k, v) = true) :
    mapLookup k (l.filter p) = some v := by
  induction l with
  | nil => simp [mapLookup] at h
  | cons hd tl ih =>
      obtain ⟨k₀, v₀⟩ := hd
      by_cases hk : k₀ = k
      · subst hk
        simp only [mapLookup_cons, if_pos rfl] at h
        cases h
        simp [List.filter, hp, mapLookup]
      · simp only [mapLookup_cons, if_neg hk] at h
        cases hq : p (k₀, v₀) <;> simp [List.filter, hq, mapLookup, hk, ih h]

theorem mapLookup_eq_none_of_not_mem_keys [DecidableEq α] {k : α} {l : List (α × β)}
    (h : k ∉ mapKeys l) : mapLookup k l = none := by
  induction l with
  | nil => rfl
  | cons hd tl ih =>
      obtain ⟨k₀, v₀⟩ := hd
      simp only [mapKeys, List.map_cons, List.mem_cons, not_or] at h
      simp [mapLookup, Ne.symm h.1, ih h.2, mapKeys]

theorem mapKeys_filter_subset [DecidableEq α] (p : α × β → Bool) (l : List (α × β)) :
    ∀ k, k ∈ mapKeys (l.filter p) → k ∈ mapKeys l := by
  intro k hk
  simp only [mapKeys, List.mem_map] at hk ⊢
  obtain ⟨kv, hkv, hfst⟩ := hk
  exact ⟨kv, List.mem_of_mem_filter hkv, hfst⟩

theorem mapLookup_filter_of_dropped [DecidableEq α] {k : α} {v : β} {l : List (α × β)}
    (p : α × β → Bool) (hnd : (mapKeys l).Nodup)
    (h : mapLookup k l = some v) (hp : p (k, v) = false) :
    mapLookup k (l.filter p) = none := by
  induction l with
  | nil => simp [mapLookup] at h
  | cons hd tl ih =>
      obtain ⟨k₀, v₀⟩ := hd
      simp only [mapKeys, List.map_cons, List.nodup_cons] at hnd
      by_cases hk : k₀ = k
      · subst hk
        simp only [mapLookup_cons, if_pos rfl] at h
        cases h
        simp only [List.filter, hp]
        exact mapLookup_eq_none_of_not_mem_keys
          (fun hmem => hnd.1 (mapKeys_filter_subset p tl _ hmem))
      · simp only [mapLookup_cons, if_neg hk] at h
        cases hq : p (k₀, v₀) <;> simp [List.filter, hq, mapLookup, hk, ih hnd.2 h]


theorem storeInv_UpdateItem (P : ExecEventItem → Prop)
    (hP : ∀ (p : Process) (t : Int), p.path ≠ "" →
      P { Proc := p, LastSeen := t, TTL := 0 })
    (env : Env) (e : EventsStore) (proc : Process) (h : storeInv P e) :
    storeInv P (e.UpdateItem env proc) := by
  unfold EventsStore.UpdateItem
  by_cases hpath : proc.path = ""
  · simpa [hpath] using h
  · simp only [if_neg hpath]
    split
    · exact h
    · intro kv hkv
      rcases mem_of_mem_mapInsert hkv with hkv | hkv
      · subst hkv
        exact hP proc env.now hpath
      · exact h kv hkv

theorem storeInv_Add (P : ExecEventItem → Prop)
    (hP : ∀ (p : Process) (t : Int), p.path ≠ "" →
      P { Proc := p, LastSeen := t, TTL := 0 })
    (env : Env) (e : EventsStore) (proc : Process) (h : storeInv P e) :
    storeInv P (e.Add env proc) := by
  unfold EventsStore.Add
  have h₁ := storeInv_UpdateItem P hP env e proc h
  dsimp only
  split
  · split
    · exact storeInv_UpdateItem P hP env _ _ h₁
    · exact h₁
  · exact h₁

theorem storeInv_ReplaceItem (P : ExecEventItem → Prop)
    (hP : ∀ (p : Process) (t : Int), p.path ≠ "" →
      P { Proc := p, LastSeen := t, TTL := 0 })
    (env : Env) (e : EventsStore) (oldProc newProc : Process)
    (h : storeInv P e) : storeInv P (e.ReplaceItem env oldProc newProc) := by
  unfold EventsStore.ReplaceItem
  dsimp only
  split <;> split <;> split <;>
    (repeat apply storeInv_UpdateItem P hP) <;> exact h

theorem storeInv_Update (P : ExecEventItem → Prop)
    (hP : ∀ (p : Process) (t : Int), p.path ≠ "" →
      P { Proc := p, LastSeen := t, TTL := 0 })
    (env : Env) (e : EventsStore) (oldProc : Process)
    (procOpt : Option Process) (h : storeInv P e) :
    storeInv P (e.Update env oldProc procOpt) := by
  unfold EventsStore.Update
  cases procOpt with
  | none =>
      dsimp only
      split
      · exact storeInv_UpdateItem P hP env _ _ h
      · exact h
  | some proc =>
      dsimp only
      split
      · exact storeInv_ReplaceItem P hP env _ _ _ h
      · split <;> split <;>
          (repeat apply storeInv_UpdateItem P hP) <;> exact h

theorem storeInv_deleteFire (P : ExecEventItem → Prop)
    (env : Env) (e : EventsStore) (key : Int) (ev : ExecEventItem)
    (h : storeInv P e) : storeInv P (e.deleteFire env key ev) := by
  unfold EventsStore.deleteFire
  split
  · exact h
  · intro kv hkv
    exact h kv (mem_of_mem_mapErase hkv)

theorem storeInv_DeleteOldItems (P : ExecEventItem → Prop)
    (env : Env) (e : EventsStore) (h : storeInv P e) :
    storeInv P (e.DeleteOldItems env) := by
  unfold EventsStore.DeleteOldItems
  intro kv hkv
  exact h kv (List.mem_of_mem_filter hkv)

theorem storeInv_applyOp (P : ExecEventItem → Prop)
    (hP : ∀ (p : Process) (t : Int), p.path ≠ "" →
      P { Proc := p, LastSeen := t, TTL := 0 })
    (env : Env) (e : EventsStore) (op : CacheOp) (h : storeInv P e) :
    storeInv P (applyOp env e op) := by
  cases op with
  | add p => exact storeInv_Add P hP env e p h
  | updateItem p => exact storeInv_UpdateItem P hP env e p h
  | replaceItem o n => exact storeInv_ReplaceItem P hP env e o n h
  | update o po => exact storeInv_Update P hP env e o po h
  | deleteFire k ev => exact storeInv_deleteFire P env e k ev h
  | deleteOld => exact storeInv_DeleteOldItems P env e h

theorem storeInv_runOps (P : ExecEventItem → Prop)
    (hP : ∀ (p : Process) (t : Int), p.path ≠ "" →
      P { Proc := p, LastSeen := t, TTL := 0 })
    (e : EventsStore) (ops : List (Env × CacheOp)) (h : storeInv P e) :
    storeInv P (runOps e ops) := by
  induction ops generalizing e with
  | nil => exact h
  | cons hd tl ih =>
      obtain ⟨env, op⟩ := hd
      exact ih _ (storeInv_applyOp P hP env e op h)

example :
    (NewEventsStore.Add envStopped (mkProc 42 "/bin/a" 500)).UpdateItem
        envStopped (mkProc 42 "/bin/b" 400)
      = NewEventsStore.Add envStopped (mkProc 42 "/bin/a" 500) := by decide

example :
    (mapLookup 7 ((NewEventsStore.Add envStopped (mkProc 7 "/bin/x" 100)).UpdateItem
          envStopped
          { mkProc 7 "/bin/x" 50 with checksums := [("sha1", "abc")] }).eventByPID).map
        (fun it => it.Proc.checksums)
      = some [("sha1", "abc")] := by decide

/-- C3: with a non-empty incoming path, `UpdateItem` discards the update
exactly when an existing entry under the incoming PID has a different path
and a strictly greater starttime; in every other case, same-path updates
with older starttimes included, the binding is overwritten by a fresh item
holding a copy of the incoming process and lastSeen = now, so checksums
carried by such an update are persisted. -/
theorem updateItem_out_of_order_guard (env : Env) (e : EventsStore)
    (proc : Process) (hp : proc.path ≠ "") :
    ((∃ it, mapLookup proc.pid e.eventByPID = some it ∧
        it.Proc.path ≠ proc.path ∧ proc.starttime < it.Proc.starttime) →
      e.UpdateItem env proc = e) ∧
    (¬(∃ it, mapLookup proc.pid e.eventByPID = some it ∧
        it.Proc.path ≠ proc.path ∧ proc.starttime < it.Proc.starttime) →
      mapLookup proc.pid (e.UpdateItem env proc).eventByPID
        = some { Proc := proc, LastSeen := env.now, TTL := 0 }) := by
  constructor
  · rintro ⟨it, hit, hpne, hlt⟩
    simp only [EventsStore.UpdateItem, if_neg hp, hit, Option.getD_some]
    rw [if_pos ⟨hpne, hlt⟩]
  · intro hno
    cases hcase : mapLookup proc.pid e.eventByPID with
    | none =>
        have hz : ¬(zeroExecEventItem.Proc.path ≠ proc.path ∧
            proc.starttime < zeroExecEventItem.Proc.starttime) := by
          rintro ⟨-, hlt⟩
          exact absurd hlt (by simp [zeroExecEventItem, zeroProcess])
        simp only [EventsStore.UpdateItem, if_neg hp, hcase, Option.getD_none,
          if_neg hz]
        exact mapLookup_insert_self _ _ _
    | some it =>
        have hg : ¬(it.Proc.path ≠ proc.path ∧
            proc.starttime < it.Proc.starttime) :=
          fun hg => hno ⟨it, hcase, hg.1, hg.2⟩
        simp only [EventsStore.UpdateItem, if_neg hp, hcase, Option.getD_some,
          if_neg hg]
        exact mapLookup_insert_self _ _ _

/-- Witness for C3: a same-path update into the empty store is persisted as
a fresh item. -/
theorem updateItem_out_of_order_guard_witness :
    mapLookup 7 (NewEventsStore.UpdateItem envStopped procX).eventByPID
      = some { Proc := procX, LastSeen := envStopped.now, TTL := 0 } :=
  (updateItem_out_of_order_guard envStopped NewEventsStore procX (by decide)).2
    (by rintro ⟨it, hit, -, -⟩; simp [NewEventsStore] at hit)

/-- C9: Add of a process with an empty path returns without any change to
the store. -/
theorem add_empty_path_noop (env : Env) (e : EventsStore) (proc : Process)
    (hp : proc.path = "") : e.Add env proc = e := by
  have hupd : ∀ q : Process, q.path = "" → e.UpdateItem env q = e := by
    intro q hq
    unfold EventsStore.UpdateItem
    rw [if_pos hq]
  unfold EventsStore.Add
  dsimp only
  rw [hupd proc hp]
  cases hcc : EventsStore.ComputeChecksums env e proc with
  | mk b proc₁ =>
      have hpath : proc₁.path = "" := by
        unfold EventsStore.ComputeChecksums at hcc
        split at hcc
        · cases hcc; exact hp
        · cases hcc; exact hp
      split
      · cases b
        · rfl
        · exact hupd proc₁ hpath
      · rfl

/-- Witness for C9: adding the zero process to a non-empty store changes
nothing. -/
theorem add_empty_path_noop_witness :
    storeA.Add envStopped zeroProcess = storeA :=
  add_empty_path_noop envStopped storeA zeroProcess rfl

/-- C10: Update with a nil candidate is total and never touches the
candidate branches: it equals the write-back of the ancestry-enriched old
process when its tree was empty and leaves the store unchanged otherwise. -/
theorem update_nil_candidate (env : Env) (e : EventsStore) (oldProc : Process) :
    e.Update env oldProc none
      = if oldProc.tree = [] then e.UpdateItem env (buildAncestry env oldProc)
        else e := by
  unfold EventsStore.Update
  dsimp only
  by_cases h : oldProc.tree.length = 0
  · have h₁ := List.length_eq_zero.mp h
    simp only [if_pos h, if_pos h₁]
  · have h₁ : ¬oldProc.tree = [] := fun hh => h (by simp [hh])
    simp only [if_neg h, if_neg h₁]

/-- C6 counterexample: on a previously absent hash name, AddChecksumHash
followed by DelChecksumHash leaves the key present with reference count 0,
so the algorithm table differs observably from its initial state (lookup
yields some 0 where it yielded none). -/
theorem addDel_checksum_cex :
    mapLookup "sha256"
        ((NewEventsStore.AddChecksumHash "sha256").DelChecksumHash
          "sha256").checksums
      = some 0
    ∧ mapLookup "sha256" NewEventsStore.checksums = none := by decide

/-- C6 amended: AddChecksumHash then DelChecksumHash restores the reference
count of every key when the hash name was already registered; when it was
absent, the pair leaves the name present with count 0 rather than absent,
and every other key is unchanged. -/
theorem addDel_checksum_roundtrip (e : EventsStore) (hs : String)
    (hbound : ∀ c, mapLookup hs e.checksums = some c → c < 2 ^ 64)
    (k : String) :
    mapLookup k ((e.AddChecksumHash hs).DelChecksumHash hs).checksums
      = if k = hs ∧ mapLookup hs e.checksums = none then some 0
        else mapLookup k e.checksums := by
  unfold EventsStore.AddChecksumHash EventsStore.DelChecksumHash
  dsimp only
  rw [mapLookup_insert_self]
  dsimp only
  by_cases hk : k = hs
  · subst hk
    rw [mapLookup_insert_self]
    cases hlook : mapLookup k e.checksums with
    | none =>
        rw [if_pos ⟨rfl, rfl⟩]
        simp only [Option.getD_none, Option.some.injEq]
        norm_num
    | some c =>
        have hc := hbound c hlook
        rw [if_neg (by rintro ⟨-, hnone⟩; cases hnone)]
        simp only [Option.getD_some, Option.some.injEq]
        omega
  · rw [mapLookup_insert_ne _ _ _ _ hk, mapLookup_insert_ne _ _ _ _ hk,
      if_neg (fun hh => hk hh.1)]

/-- Witness for the amended C6: a round trip on a key registered with count
3 restores the whole table pointwise. -/
theorem addDel_checksum_roundtrip_witness :
    mapLookup "md5"
        (((⟨[], [("md5", 3)], true⟩ : EventsStore).AddChecksumHash
            "md5").DelChecksumHash "md5").checksums
      = if ("md5" : String) = "md5" ∧
          mapLookup "md5" (⟨[], [("md5", 3)], true⟩ : EventsStore).checksums = none
        then some 0
        else mapLookup "md5" (⟨[], [("md5", 3)], true⟩ : EventsStore).checksums :=
  addDel_checksum_roundtrip ⟨[], [("md5", 3)], true⟩ "md5"
    (by intro c hc; simp [mapLookup] at hc; omega) "md5"

theorem le_tdiv_ns (d : Int) (h : 20 * 1000000000 ≤ d) :
    20 ≤ d.tdiv 1000000000 := by
  have hd : 0 ≤ d := by omega
  rw [Int.tdiv_eq_ediv hd (by norm_num)]
  rw [Int.le_ediv_iff_mul_le (by norm_num : (0 : Int) < 1000000000)]
  omega

theorem tdiv_ns_lt (d : Int) (h : d < 20 * 1000000000) :
    d.tdiv 1000000000 < 20 := by
  rcases le_or_lt 0 d with hd | hd
  · rw [Int.tdiv_eq_ediv hd (by norm_num)]
    rw [Int.ediv_lt_iff_lt_mul (by norm_num : (0 : Int) < 1000000000)]
    omega
  · have h₁ : d = -(-d) := by ring
    rw [h₁, Int.neg_tdiv]
    have h₂ : 0 ≤ (-d).tdiv 1000000000 :=
      Int.tdiv_nonneg (by omega) (by norm_num)
    omega

/-- C5: after DeleteOldItems runs at time now, every entry at least 20 s old
whose process is not alive has been removed; entries with a live process
survive whatever their age; entries younger than 20 s survive as well. -/
theorem deleteOldItems_spec (env : Env) (e : EventsStore)
    (hnd : (mapKeys e.eventByPID).Nodup) (key : Int) (it : ExecEventItem)
    (hit : mapLookup key e.eventByPID = some it) :
    (pidTTL * 1000000000 ≤ env.now - it.LastSeen →
        it.Proc.IsAlive env = false →
        mapLookup key (e.DeleteOldItems env).eventByPID = none) ∧
    (it.Proc.IsAlive env = true →
        mapLookup key (e.DeleteOldItems env).eventByPID = some it) ∧
    (env.now - it.LastSeen < pidTTL * 1000000000 →
        mapLookup key (e.DeleteOldItems env).eventByPID = some it) := by
  unfold EventsStore.DeleteOldItems
  dsimp only
  refine ⟨?_, ?_, ?_⟩
  · intro hage hdead
    apply mapLookup_filter_of_dropped _ hnd hit
    have h₁ : ¬((env.now - it.LastSeen).tdiv 1000000000 < pidTTL) := by
      have h₂ := le_tdiv_ns (env.now - it.LastSeen)
        (by unfold pidTTL at hage; omega)
      unfold pidTTL
      omega
    simp [ExecEventItem.isValid, h₁, hdead]
  · intro halive
    apply mapLookup_filter_of_kept _ hit
    simp [halive]
  · intro hage
    apply mapLookup_filter_of_kept _ hit
    have h₁ : (env.now - it.LastSeen).tdiv 1000000000 < pidTTL := by
      have h₂ := tdiv_ns_lt (env.now - it.LastSeen)
        (by unfold pidTTL at hage; omega)
      unfold pidTTL
      omega
    simp [ExecEventItem.isValid, h₁]

/-- Witness for C5: a 30 s old dead entry is removed by the janitor. -/
theorem deleteOldItems_spec_witness :
    mapLookup 6 (storeOld30.DeleteOldItems envLate).eventByPID = none :=
  (deleteOldItems_spec envLate storeOld30 (by decide) 6 itemOld30
      (by decide)).1 (by decide) (by decide)

/-- C7: every sequence of Add, UpdateItem, ReplaceItem, Update, deferred
Delete and DeleteOldItems operations preserves the invariant that no stored
item has an empty path. -/
theorem no_empty_path_invariant (e : EventsStore) (ops : List (Env × CacheOp))
    (h : storeInv (fun it => it.Proc.path ≠ "") e) :
    storeInv (fun it => it.Proc.path ≠ "") (runOps e ops) :=
  storeInv_runOps _ (fun _ _ hp => hp) e ops h

/-- Witness for C7: the invariant holds after a sequence exercising every
operation, starting from the empty store. -/
theorem no_empty_path_invariant_witness :
    storeInv (fun it => it.Proc.path ≠ "") (runOps NewEventsStore opsW) :=
  no_empty_path_invariant NewEventsStore opsW
    (by intro kv hkv; simp [NewEventsStore] at hkv)

/-- C8 counterexample: the item stored by UpdateItem carries TTL 0, not the
20 the claim asserts. -/
theorem ttl_not_twenty_cex :
    (mapLookup 3 (NewEventsStore.UpdateItem envStopped
        (mkProc 3 "/bin/c" 10)).eventByPID).map ExecEventItem.TTL = some 0
    ∧ ((0 : Int) = 20 → False) := by decide

/-- C8 amended: every stored item carries TTL = 0 across every sequence of
operations (the field is never assigned by the code), and every snapshot
returned by IsInStoreByPID carries TTL = 0 as well; the 20-second default of
the spec is the package constant pidTTL, not a per-item field. -/
theorem ttl_zero_invariant (e : EventsStore) (ops : List (Env × CacheOp))
    (h : storeInv (fun it => it.TTL = 0) e) :
    storeInv (fun it => it.TTL = 0) (runOps e ops)
    ∧ ∀ (env : Env) (key : Int) (it : ExecEventItem),
        ((runOps e ops).IsInStoreByPID env key).1 = some it → it.TTL = 0 := by
  have h₁ := storeInv_runOps (fun it => it.TTL = 0) (fun _ _ _ => rfl) e ops h
  refine ⟨h₁, ?_⟩
  intro env key it hit
  unfold EventsStore.IsInStoreByPID at hit
  cases hlook : mapLookup key (runOps e ops).eventByPID with
  | none =>
      rw [hlook] at hit
      cases hit
  | some item₀ =>
      rw [hlook] at hit
      dsimp only at hit
      injection hit with h₂
      subst h₂
      exact h₁ _ (mapLookup_mem hlook)

/-- Witness for the amended C8: instantiated on the empty store and the
all-operation sequence. -/
theorem ttl_zero_invariant_witness :
    storeInv (fun it => it.TTL = 0) (runOps NewEventsStore opsW)
    ∧ ∀ (env : Env) (key : Int) (it : ExecEventItem),
        ((runOps NewEventsStore opsW).IsInStoreByPID env key).1 = some it →
        it.TTL = 0 :=
  ttl_zero_invariant NewEventsStore opsW
    (by intro kv hkv; simp [NewEventsStore] at hkv)

/-- C4 counterexample: a candidate carrying a checksum against an alive
cached process with no checksums makes needsUpdate return true, where the
claim demands false. -/
theorem needsUpdate_candidate_checksums_cex :
    EventsStore.needsUpdate envRunning cachedC4 (some candC4) = true
    ∧ 0 < candC4.ChecksumsCount
    ∧ cachedC4.IsAlive envRunning = true := by decide

/-- C4 amended: needsUpdate returns false whenever the candidate is non-nil,
the cached process has at least one checksum and is alive, and the candidate
does not signal a same-PID path change. -/
theorem needsUpdate_cache_hit (env : Env) (cached cand : Process)
    (h₁ : 0 < cached.ChecksumsCount)
    (h₂ : cached.IsAlive env = true)
    (h₃ : ¬(cand.pid = cached.pid ∧ cand.path ≠ cached.path)) :
    EventsStore.needsUpdate env cached (some cand) = false := by
  have hb : (cand.pid == cached.pid && cand.path != cached.path) = false := by
    by_cases hpid : cand.pid = cached.pid
    · by_cases hpath : cand.path = cached.path
      · simp [hpath]
      · exact absurd ⟨hpid, hpath⟩ h₃
    · simp [hpid]
  simp [EventsStore.needsUpdate, hb, h₂, h₁]

/-- Witness for the amended C4: a hashed, alive cached entry with matching
path reports no update needed. -/
theorem needsUpdate_cache_hit_witness :
    EventsStore.needsUpdate envRunning cachedHit (some candHit) = false :=
  needsUpdate_cache_hit envRunning cachedHit candHit (by decide) (by decide)
    (by decide)

/-- C2: when the deferred delete fires on a PID whose entry was overwritten
by a newer incarnation, aliveness of that PID at fire time governs the
decision (the captured copy and the current entry share the PID), so a live
replacement is never removed. -/
theorem delete_live_replacement_survives (env : Env) (s₀ s₁ : EventsStore)
    (key : Int) (ev it₁ : ExecEventItem)
    (_hsched : s₀.Delete key = some ev)
    (hev : ev.Proc.pid = key)
    (hcur : mapLookup key s₁.eventByPID = some it₁)
    (hpid : it₁.Proc.pid = key)
    (halive : it₁.Proc.IsAlive env = true) :
    mapLookup key (s₁.deleteFire env key ev).eventByPID = some it₁ := by
  have hev_alive : ev.Proc.IsAlive env = true := by
    unfold Process.IsAlive at halive ⊢
    rw [hev, ← hpid]
    exact halive
  unfold EventsStore.deleteFire
  rw [if_pos hev_alive]
  exact hcur

/-- Witness for C2: PID 4 is overwritten between schedule and fire while the
kernel table reports it alive, and the replacement survives the fire. -/
theorem delete_live_replacement_survives_witness :
    mapLookup 4 (storeFire.deleteFire envRunning 4
        { Proc := procOld, LastSeen := 0, TTL := 0 }).eventByPID
      = some { Proc := procNew, LastSeen := 500, TTL := 0 } :=
  delete_live_replacement_survives envRunning storeSched storeFire 4
    { Proc := procOld, LastSeen := 0, TTL := 0 }
    { Proc := procNew, LastSeen := 500, TTL := 0 }
    (by decide) (by decide) (by decide) (by decide) (by decide)

/-- C1: at the failing input the lookup returns found = true with the
snapshot carrying the bumped LastSeen, but the store comes back unchanged:
the stored entry keeps LastSeen 0, contradicting the claimed write-back. -/
theorem isInStoreByPID_no_writeback :
    (storeA.IsInStoreByPID envStopped 1).1
        = some { Proc := procA, LastSeen := envStopped.now, TTL := 0 }
    ∧ (storeA.IsInStoreByPID envStopped 1).2 = storeA
    ∧ (mapLookup 1 (storeA.IsInStoreByPID envStopped 1).2.eventByPID).map
        ExecEventItem.LastSeen = some 0
    ∧ ((0 : Int) = envStopped.now → False) := by decide

end Procmon
